import Mathlib

/-! Verification of the image-stack processing pipeline (`src/bin/imgProcessing.py`).

The embedding models pixel intensities as exact rationals (the Python code works on
floating-point arrays; we idealize pixel-value IEEE floats as `ℚ`).  An `ImageStack`
is the 5-D array `[round, channel, zplane, y, x]`; it is represented by its extents
together with a total indexing function.  Library primitives that the pipeline treats
as black boxes (the `cv2` morphological opening, `scipy` affine warping, `numpy`
matrix inversion, `skimage` phase cross-correlation) are universally quantified
function parameters.  The one place where float rounding changes control flow rather
than values — the chunk-boundary computation `int((len(rchs) / num_threads) * i)` of
the parallel background estimate, which decides which planes are processed at all —
is modelled bit-exactly as binary64 arithmetic (round-nearest-even, with unbounded
exponent range, exact for every magnitude this computation can reach).
-/

namespace ImgProcessing

/-- A 2-D plane indexed by `(y, x)`. -/
abbrev Plane2 : Type := Nat → Nat → ℚ

/-- A 3-D volume indexed by `(z, y, x)` — one `(round, channel)` block. -/
abbrev Plane3 : Type := Nat → Nat → Nat → ℚ

/-- The raw 5-D array indexed by `(round, channel, zplane, y, x)`. -/
abbrev Data5 : Type := Nat → Nat → Nat → Nat → Nat → ℚ

/-- A starfish `ImageStack`: extents plus the backing array
(`img.xarray.data` in the source). -/
structure ImageStack where
  num_rounds : Nat
  num_chs : Nat
  num_zplanes : Nat
  ydim : Nat
  xdim : Nat
  data : Data5

/-- The 3-D block `img.xarray.data[r, ch]`. -/
def ImageStack.block (img : ImageStack) (r ch : Nat) : Plane3 :=
  fun z y x => img.data r ch z y x

/-- Embedding of `subtract_background(img, background)` (`imgProcessing.py` lines 113–128):
for every in-range `(r, ch, z)` subtracts the background plane
`bg_dat[r, ch % background.num_chs, z]`, then zeroes the negative entries of the
`(r, ch)` block (pointwise this is `max 0 (target - background)`). -/
def subtract_background (img background : ImageStack) : ImageStack :=
  { img with
    data := fun r ch z y x =>
      if r < img.num_rounds ∧ ch < img.num_chs ∧ z < img.num_zplanes then
        max 0 (img.data r ch z y x - background.data r (ch % background.num_chs) z y x)
      else img.data r ch z y x }

/-- The list `rchs = [(r, ch) for r in range(R) for ch in range(C)]`
(round-major, channel-minor order). -/
def rc_pairs (R C : Nat) : List (Nat × Nat) :=
  (List.range R).flatMap (fun r => (List.range C).map (fun ch => (r, ch)))

/-- Bit length of a natural number (fuel-based so that it is structurally recursive
and kernel-computable): `bitlen n = l` iff `2 ^ (l - 1) ≤ n < 2 ^ l` for `n ≥ 1`. -/
def bitlenAux : Nat → Nat → Nat
  | 0, _ => 0
  | fuel + 1, n => if n = 0 then 0 else bitlenAux fuel (n / 2) + 1

/-- Bit length entry point (the fuel `n` always suffices since `n / 2` shrinks). -/
def bitlen (n : Nat) : Nat := bitlenAux n n

/-- Round the fraction `num / den` to the nearest natural number, ties to even —
the IEEE-754 default rounding direction used by Python floats. -/
def rneDivEven (num den : Nat) : Nat :=
  let q := num / den
  let r := num % den
  if 2 * r < den then q
  else if den < 2 * r then q + 1
  else if q % 2 = 0 then q else q + 1

/-- A nonnegative binary64 value, represented as `mantissa * 2 ^ exponent`.  The
exponent range is unbounded (no overflow or subnormals), which is exact for every
magnitude the chunk-boundary arithmetic of this pipeline can produce. -/
abbrev F64 : Type := Nat × Int

/-- Round an exact natural number to 53 significant bits, nearest-even: the binary64
result of a product whose exact value is `n`. -/
def roundN (n : Nat) : F64 :=
  let l := bitlen n
  if l ≤ 53 then (n, 0)
  else (rneDivEven n (2 ^ (l - 53)), (l : Int) - 53)

/-- Correctly rounded binary64 quotient of two naturals: Python's true division
`len(rchs) / num_threads` (both ints convert exactly).  The scaled quotient
`a * 2 ^ s1 / b` lies in `[2 ^ 51, 2 ^ 53)`; the branch picks the scaling that puts
the significand in `[2 ^ 52, 2 ^ 53)` and rounds once, nearest-even. -/
def fdiv (a b : Nat) : F64 :=
  let k : Int := (bitlen a : Int) - (bitlen b : Int)
  let s1 : Int := 52 - k
  let num1 := a * 2 ^ (max s1 0).toNat
  let den1 := b * 2 ^ (max (-s1) 0).toNat
  if num1 / den1 < 2 ^ 52 then (rneDivEven (2 * num1) den1, -(s1 + 1))
  else (rneDivEven num1 den1, -s1)

/-- Correctly rounded binary64 product of a float with an exact natural: Python's
`* i` (the loop index `i ≤ num_threads` converts to float exactly for any feasible
worker count, so the exact product is rounded once). -/
def fmul_nat (x : F64) (i : Nat) : F64 :=
  let p := roundN (x.1 * i)
  (p.1, x.2 + p.2)

/-- Python's `int()` truncation of a nonnegative float (truncation toward zero,
which is the floor here). -/
def ftrunc (x : F64) : Nat :=
  if 0 ≤ x.2 then x.1 * 2 ^ x.2.toNat else x.1 / 2 ^ (-x.2).toNat

/-- Embedding of `ranges[i]` from `subtract_background_estimate` (lines 151–154):
`int((len(rchs) / num_threads) * i)` with bit-exact binary64 semantics — a rounded
division, a rounded multiplication, then truncation.  `ranges[0] = 0` agrees, since
multiplying any float by `0` gives float zero, which truncates to `0`. -/
def chunk_bound (len T i : Nat) : Nat := ftrunc (fmul_nat (fdiv len T) i)

/-- Embedding of `chunked_rchs = [rchs[ranges[i]:ranges[i+1]] for i ...]` (line 155):
`T` consecutive Python slices of `l` cut at the `chunk_bound` offsets. -/
def chunked_slices (l : List (Nat × Nat)) (T : Nat) : List (List (Nat × Nat)) :=
  (List.range T).map (fun i =>
    (l.drop (chunk_bound l.length T i)).take
      (chunk_bound l.length T (i + 1) - chunk_bound l.length T i))

/-- Embedding of `morph_open(rchs, image, size)` (lines 131–141): for each `(r, ch)` of the chunk,
builds the per-plane background estimate `cv2.morphologyEx(image[r, ch, z], MORPH_OPEN,
disk(size))` for `z < image.shape[2]` (the block starts as `np.zeros_like`).
`opn` is the black-box `cv2` opening, taking the disk radius and a 2-D plane. -/
def morph_open (opn : Nat → Plane2 → Plane2) (rchs : List (Nat × Nat))
    (image : Data5) (zdim : Nat) (size : Nat) : List Plane3 :=
  rchs.map (fun rc => fun z y x =>
    if z < zdim then opn size (fun y' x' => image rc.1 rc.2 z y' x') y x else 0)

/-- One merge step of `subtract_background_estimate` (lines 167–169):
`img[r, ch] = img[r, ch] - bg` followed by `img[r, ch][img[r, ch] < 0] = 0`. -/
def merge_step (d : Data5) (rc : Nat × Nat) (bg : Plane3) : Data5 :=
  fun r ch z y x =>
    if r = rc.1 ∧ ch = rc.2 then max 0 (d rc.1 rc.2 z y x - bg z y x)
    else d r ch z y x

/-- Embedding of `subtract_background_estimate(img, num_threads)` (lines 144–170): slices the
`(round, channel)` pairs at the float-computed `chunk_bound` cut points, runs
`morph_open` with radius 100 per chunk on the (read-only) input array, then re-walks
the chunk structure in dispatch order, subtracting each returned estimate and
clamping.  Pairs falling outside the computed cut points are never dispatched and
their planes remain untouched. -/
def subtract_background_estimate (opn : Nat → Plane2 → Plane2)
    (img : ImageStack) (num_threads : Nat) : ImageStack :=
  let rchs := rc_pairs img.num_rounds img.num_chs
  let chunked_rchs := chunked_slices rchs num_threads
  let results := chunked_rchs.map
    (fun chunk => morph_open opn chunk img.data img.num_zplanes 100)
  { img with
    data :=
      (chunked_rchs.zip results).foldl
        (fun d cr => (cr.1.zip cr.2).foldl (fun d p => merge_step d p.1 p.2) d)
        img.data }

/-- A 4×4 matrix, indexed `(row, column)` on `Nat`. -/
abbrev Mat4 : Type := Nat → Nat → ℚ

/-- One in-place update `m[i, 3] = v` of a matrix. -/
def set_entry (m : Mat4) (i j : Nat) (v : ℚ) : Mat4 :=
  fun a b => if a = i ∧ b = j then v else m a b

/-- The transformation matrix built in `register_primary` (lines 96–100):
`tform = np.diag([1.0] * 4)` followed by `tform[i, 3] = shifts[(r, ch)][i]`
for `i in range(1, 3)` (the z row, index 0, is deliberately skipped). -/
def mkTform (shift : Nat → ℚ) : Mat4 :=
  (List.range' 1 2).foldl (fun m i => set_entry m i 3 (shift i))
    (fun a b => if a = b then 1 else 0)

/-- Embedding of `register_primary(img, reg_img, chs_per_reg)` (lines 75–110).
`pcc` is the black-box `phase_cross_correlation(reference, moving)` shift estimator
(returning the shift vector as a function of the axis index), `inv` the black-box
`np.linalg.inv`, and `warp` the black-box `ndimage.affine_transform`, which takes the
matrix, the requested `output_shape` (the `(z, y, x)` extents, `shape[2:]` of the
primary's raw shape), and the input block.  The reference is plane `(0, 0)` of the
registration stack; primary plane `(r, ch)` is warped with
`inv (tforms[(r, ch / chs_per_reg)])`. -/
def register_primary (pcc : Plane3 → Plane3 → Nat → ℚ) (inv : Mat4 → Mat4)
    (warp : Mat4 → Nat × Nat × Nat → Plane3 → Plane3)
    (img reg_img : ImageStack) (chs_per_reg : Nat) : ImageStack :=
  let shifts : Nat → Nat → Nat → ℚ :=
    fun r ch => pcc (reg_img.block 0 0) (reg_img.block r ch)
  let tforms : Nat → Nat → Mat4 := fun r ch => mkTform (shifts r ch)
  { img with
    data := fun r ch z y x =>
      if r < img.num_rounds ∧ ch < img.num_chs then
        warp (inv (tforms r (ch / chs_per_reg)))
          (img.num_zplanes, img.ydim, img.xdim) (img.block r ch) z y x
      else img.data r ch z y x }

/-- Embedding of `np.mean(img.xarray.data[r, ch])`: the arithmetic mean of the `(r, ch)` block. -/
def np_mean (img : ImageStack) (r ch : Nat) : ℚ :=
  (((List.range img.num_zplanes).map (fun z =>
      ((List.range img.ydim).map (fun y =>
        ((List.range img.xdim).map (fun x => img.data r ch z y x)).sum)).sum)).sum)
    / (img.num_zplanes * img.ydim * img.xdim)

/-- Embedding of `meds.items()` from `match_hist_2_min` (lines 196–200): the per-`(r, ch)` means,
listed in dict insertion order (round-major, channel-minor). -/
def meds_items (img : ImageStack) : List ((Nat × Nat) × ℚ) :=
  (rc_pairs img.num_rounds img.num_chs).map (fun rc => (rc, np_mean img rc.1 rc.2))

/-- Embedding of `min_rch = sorted(meds.items(), key=lambda item: item[1])[0][0]` (line 201).
Python's `sorted` is a stable sort on the mean; we model it with a stable insertion
sort.  (On an empty stack Python would raise `IndexError`; the model returns the
junk key `(0, 0)` there.) -/
def min_rch (img : ImageStack) : Nat × Nat :=
  (((meds_items img).insertionSort (fun a b => a.2 ≤ b.2)).headD ((0, 0), 0)).1

/-- Embedding of `np.rint`: round to the nearest integer, halves to the nearest even integer. -/
def np_rint (q : ℚ) : ℤ :=
  if q - ⌊q⌋ < 1 / 2 then ⌊q⌋
  else if 1 / 2 < q - ⌊q⌋ then ⌊q⌋ + 1
  else if 2 ∣ ⌊q⌋ then ⌊q⌋ else ⌊q⌋ + 1

/-- The quantization step of `rolling_ball` (line 181) and `match_hist_2_min`
(lines 204, 207): `np.rint(x * 2**16)`. -/
def quantize16 (x : ℚ) : ℤ := np_rint (x * 2 ^ 16)

/-- The matching de-quantization `data /= 2**16` (lines 186, 209). -/
def dequantize16 (n : ℤ) : ℚ := (n : ℚ) / 2 ^ 16

/-- The starfish `Levels` enumeration members used by `cli`. -/
inductive Levels where
  | SCALE_BY_CHUNK
  | SCALE_BY_IMAGE
  | SCALE_SATURATED_BY_CHUNK
  | SCALE_SATURATED_BY_IMAGE
deriving DecidableEq

/-- Python's `str.upper()` (as applied to the ASCII option strings involved here):
uppercase every character. -/
def str_upper (s : String) : String := ⟨s.data.map Char.toUpper⟩

/-- The `level_method` dispatch of `cli` (lines 305–314): four case-insensitive
string comparisons (`level_method.upper() == ...`), with a silent default of
`Levels.SCALE_BY_IMAGE`. -/
def resolve_level_method (level_method : String) : Levels :=
  if str_upper level_method = "SCALE_BY_CHUNK" then Levels.SCALE_BY_CHUNK
  else if str_upper level_method = "SCALE_BY_IMAGE" then Levels.SCALE_BY_IMAGE
  else if str_upper level_method = "SCALE_SATURATED_BY_CHUNK" then
    Levels.SCALE_SATURATED_BY_CHUNK
  else if str_upper level_method = "SCALE_SATURATED_BY_IMAGE" then
    Levels.SCALE_SATURATED_BY_IMAGE
  else Levels.SCALE_BY_IMAGE

/-- The pipeline stages of `cli`, with the two background-removal modes
distinguished (they are selected by whether `background_name` is set). -/
inductive Stage where
  | subtractBackground
  | subtractBackgroundEstimate
  | highPass
  | deconvolve
  | lowPass
  | whiteTopHat
  | rollingBall
  | histogramMatch
  | registerPrimary
  | clipAndScale
deriving DecidableEq

/-- The truthiness of the `cli` keyword arguments that gate each stage
(a `None`/empty value is falsy in Python). -/
structure CliConfig where
  background_name : Bool
  anchor_name : Bool
  high_sigma : Bool
  decon_sigma : Bool
  low_sigma : Bool
  wth_rad : Bool
  rolling_rad : Bool
  match_hist : Bool
  aux_name : Bool
  rescale : Bool

/-- The stages `cli` (lines 333–421) applies to the primary stack, in source order:
background removal (mode chosen by `background_name`), then — each behind its own
flag — high-pass, deconvolution, low-pass, white top-hat, rolling ball, histogram
matching, registration (`aux_name`), and clip-and-scale (skipped when `rescale`). -/
def primary_stages (cfg : CliConfig) : List Stage :=
  (if cfg.background_name then [Stage.subtractBackground]
   else [Stage.subtractBackgroundEstimate]) ++
  (if cfg.high_sigma then [Stage.highPass] else []) ++
  (if cfg.decon_sigma then [Stage.deconvolve] else []) ++
  (if cfg.low_sigma then [Stage.lowPass] else []) ++
  (if cfg.wth_rad then [Stage.whiteTopHat] else []) ++
  (if cfg.rolling_rad then [Stage.rollingBall] else []) ++
  (if cfg.match_hist then [Stage.histogramMatch] else []) ++
  (if cfg.aux_name then [Stage.registerPrimary] else []) ++
  (if cfg.rescale then [] else [Stage.clipAndScale])

/-- The stages `cli` applies to the anchor stack when `anchor_name` is set: the
`if anchor_name:` branches at lines 338/346 (background, mode-matched), 356
(high-pass), 366 (deconvolution), 380 (white top-hat), 388 (rolling ball), 399
(histogram matching) and 416 (clip-and-scale with fixed bounds 90/99.9).  The
low-pass block (lines 370–375) and the registration block (lines 403–407) have no
anchor branch. -/
def anchor_stages (cfg : CliConfig) : List Stage :=
  if cfg.anchor_name then
    (if cfg.background_name then [Stage.subtractBackground]
     else [Stage.subtractBackgroundEstimate]) ++
    (if cfg.high_sigma then [Stage.highPass] else []) ++
    (if cfg.decon_sigma then [Stage.deconvolve] else []) ++
    (if cfg.wth_rad then [Stage.whiteTopHat] else []) ++
    (if cfg.rolling_rad then [Stage.rollingBall] else []) ++
    (if cfg.match_hist then [Stage.histogramMatch] else []) ++
    (if cfg.rescale then [] else [Stage.clipAndScale])
  else []

/-- The first entry of minimal value in a list of `(key, mean)` entries (what the
head of a stable ascending sort by the mean returns). -/
def firstMinAux : List ((Nat × Nat) × ℚ) → Option ((Nat × Nat) × ℚ)
  | [] => none
  | p :: l =>
    some (match firstMinAux l with
      | none => p
      | some m => if p.2 ≤ m.2 then p else m)

/-! Section: Concrete instances used to witness the theorems on sample inputs -/

/-- A trivial stand-in for the black-box `cv2` opening: the identity on planes. -/
def opn0 : Nat → Plane2 → Plane2 := fun _ p => p

/-- A trivial stand-in for the black-box shift estimator: always the zero shift. -/
def pcc0 : Plane3 → Plane3 → Nat → ℚ := fun _ _ _ => 0

/-- A trivial stand-in for the black-box matrix inverter: the identity. -/
def inv0 : Mat4 → Mat4 := fun m => m

/-- A trivial stand-in for the black-box affine warper: returns the input block. -/
def warp0 : Mat4 → Nat × Nat × Nat → Plane3 → Plane3 := fun _ _ p => p

/-- A 1-round, 2-channel, 1-zplane, 1×1 sample stack. -/
def imgW : ImageStack :=
  ⟨1, 2, 1, 1, 1, fun _ ch _ _ _ => if ch = 0 then 1 / 2 else 1 / 4⟩

/-- A 1-round, 2-channel, 1-zplane, 1×1 sample background stack. -/
def bgW : ImageStack := ⟨1, 2, 1, 1, 1, fun _ _ _ _ _ => 1 / 4⟩

/-- A 1-round, 3-channel target whose channel count (3) is not a multiple of the
2-channel background `bgC9`. -/
def imgC9 : ImageStack := ⟨1, 3, 1, 1, 1, fun _ _ _ _ _ => 1⟩

/-- A 1-round, 2-channel background with distinct values per channel, so the
channel-wrapping of `subtract_background` is observable. -/
def bgC9 : ImageStack :=
  ⟨1, 2, 1, 1, 1, fun _ ch _ _ _ => if ch = 0 then 1 / 4 else 3 / 4⟩

/-- A configuration with an anchor view and every optional stage enabled
(estimated background mode, `rescale` off). -/
def cfgC4 : CliConfig :=
  ⟨false, true, true, true, true, true, true, true, true, false⟩

/-- A 1-round, 1-channel, 1-zplane, 1×1 all-ones stack: the failing input on which
the float chunk boundaries drop the single `(round, channel)` pair when
`num_threads = 49`. -/
def imgF : ImageStack := ⟨1, 1, 1, 1, 1, fun _ _ _ _ _ => 1⟩

/-! Section: Helper lemmas -/

theorem subtract_background_data (img background : ImageStack) (r ch z y x : Nat)
    (hr : r < img.num_rounds) (hch : ch < img.num_chs) (hz : z < img.num_zplanes) :
    (subtract_background img background).data r ch z y x =
      max 0 (img.data r ch z y x - background.data r (ch % background.num_chs) z y x) := by
  simp [subtract_background, hr, hch, hz]

theorem merge_step_nonneg (d : Data5) (rc : Nat × Nat) (bg : Plane3) (r ch z y x : Nat)
    (h : 0 ≤ d r ch z y x) : 0 ≤ merge_step d rc bg r ch z y x := by
  unfold merge_step
  split_ifs with hcond
  · exact le_max_left _ _
  · exact h

theorem foldl_merge_nonneg (pairs : List ((Nat × Nat) × Plane3)) (d : Data5)
    (r ch z y x : Nat) (h : 0 ≤ d r ch z y x) :
    0 ≤ (pairs.foldl (fun d p => merge_step d p.1 p.2) d) r ch z y x := by
  induction pairs generalizing d with
  | nil => exact h
  | cons p ps ih => exact ih _ (merge_step_nonneg d p.1 p.2 r ch z y x h)

theorem foldl_chunks_nonneg (crs : List (List (Nat × Nat) × List Plane3)) (d : Data5)
    (r ch z y x : Nat) (h : 0 ≤ d r ch z y x) :
    0 ≤ (crs.foldl
        (fun d cr => (cr.1.zip cr.2).foldl (fun d p => merge_step d p.1 p.2) d) d)
      r ch z y x := by
  induction crs generalizing d with
  | nil => exact h
  | cons cr crs ih => exact ih _ (foldl_merge_nonneg (cr.1.zip cr.2) d r ch z y x h)

/-- Every value `subtract_background_estimate` writes is clamped at zero, and planes
it never dispatches keep their input values — so nonnegative input pixels stay
nonnegative for every worker count, independently of which chunks the float
boundaries produce. -/
theorem sbe_nonneg (opn : Nat → Plane2 → Plane2) (img : ImageStack)
    (num_threads r ch z y x : Nat) (h : 0 ≤ img.data r ch z y x) :
    0 ≤ (subtract_background_estimate opn img num_threads).data r ch z y x := by
  show 0 ≤ ((chunked_slices (rc_pairs img.num_rounds img.num_chs) num_threads).zip
      ((chunked_slices (rc_pairs img.num_rounds img.num_chs) num_threads).map
        (fun chunk => morph_open opn chunk img.data img.num_zplanes 100))).foldl
      (fun d cr => (cr.1.zip cr.2).foldl (fun d p => merge_step d p.1 p.2) d)
      img.data r ch z y x
  exact foldl_chunks_nonneg _ img.data r ch z y x h

theorem np_rint_close (q : ℚ) : |((np_rint q : ℤ) : ℚ) - q| ≤ 1 / 2 := by
  have h1 : ((⌊q⌋ : ℤ) : ℚ) ≤ q := Int.floor_le q
  have h2 : q < ((⌊q⌋ : ℤ) : ℚ) + 1 := Int.lt_floor_add_one q
  rw [abs_le]
  unfold np_rint
  split_ifs <;> constructor <;> push_cast <;> linarith

theorem rc_pairs_succ (R C : Nat) :
    rc_pairs (R + 1) C = rc_pairs R C ++ (List.range C).map (fun ch => (R, ch)) := by
  simp [rc_pairs, List.range_succ]

theorem length_rc_pairs (R C : Nat) : (rc_pairs R C).length = R * C := by
  induction R with
  | zero => simp [rc_pairs]
  | succ n ih => rw [rc_pairs_succ]; simp [ih, Nat.succ_mul]

theorem mem_rc_pairs {R C : Nat} {rc : Nat × Nat} :
    rc ∈ rc_pairs R C ↔ rc.1 < R ∧ rc.2 < C := by
  constructor
  · intro h
    simp only [rc_pairs, List.mem_flatMap, List.mem_map, List.mem_range] at h
    obtain ⟨a, ha, b, hb, hrc⟩ := h
    subst hrc
    exact ⟨ha, hb⟩
  · intro ⟨h1, h2⟩
    simp only [rc_pairs, List.mem_flatMap, List.mem_map, List.mem_range]
    exact ⟨rc.1, h1, rc.2, h2, rfl⟩

theorem rc_pairs_eq_range_map (R C : Nat) :
    rc_pairs R C = (List.range (R * C)).map (fun i => (i / C, i % C)) := by
  induction R with
  | zero => simp [rc_pairs]
  | succ n ih =>
    rw [rc_pairs_succ, ih, Nat.succ_mul, List.range_add, List.map_append]
    congr 1
    rw [List.map_map]
    apply List.map_congr_left
    intro c hc
    rw [List.mem_range] at hc
    have hC : 0 < C := Nat.pos_of_ne_zero (fun h0 => by rw [h0] at hc; exact Nat.not_lt_zero c hc)
    simp only [Function.comp_apply]
    have hdiv : (n * C + c) / C = n := by
      rw [Nat.add_comm, Nat.mul_comm n C, Nat.add_mul_div_left _ _ hC,
        Nat.div_eq_of_lt hc, Nat.zero_add]
    have hmod : (n * C + c) % C = c := by
      rw [Nat.add_comm, Nat.mul_comm n C, Nat.add_mul_mod_self_left, Nat.mod_eq_of_lt hc]
    rw [hdiv, hmod]

theorem rc_pairs_getElem (R C i : Nat) (h : i < (rc_pairs R C).length) :
    (rc_pairs R C)[i] = (i / C, i % C) := by
  have h' : i < ((List.range (R * C)).map (fun i => (i / C, i % C))).length := by
    rw [← rc_pairs_eq_range_map]; exact h
  rw [List.getElem_of_eq (rc_pairs_eq_range_map R C) h]
  simp

theorem head?_orderedInsert (p : (Nat × Nat) × ℚ) (l : List ((Nat × Nat) × ℚ)) :
    (List.orderedInsert (fun a b => a.2 ≤ b.2) p l).head? =
      some (match l.head? with
        | none => p
        | some b => if p.2 ≤ b.2 then p else b) := by
  cases l with
  | nil => rfl
  | cons b bs =>
    rw [List.orderedInsert]
    by_cases h : p.2 ≤ b.2
    · simp [h]
    · simp [h]

theorem head?_insertionSort (l : List ((Nat × Nat) × ℚ)) :
    (l.insertionSort (fun a b => a.2 ≤ b.2)).head? = firstMinAux l := by
  induction l with
  | nil => rfl
  | cons p l ih =>
    rw [List.insertionSort, head?_orderedInsert, ih, firstMinAux]

theorem firstMinAux_none_iff (l : List ((Nat × Nat) × ℚ)) :
    firstMinAux l = none ↔ l = [] := by
  cases l with
  | nil => simp [firstMinAux]
  | cons p l => simp [firstMinAux]

theorem firstMinAux_spec (l : List ((Nat × Nat) × ℚ)) (m : (Nat × Nat) × ℚ)
    (hm : firstMinAux l = some m) :
    ∃ i, ∃ h : i < l.length, l[i] = m ∧
      (∀ j, ∀ hj : j < l.length, j < i → m.2 < l[j].2) ∧
      ∀ p ∈ l, m.2 ≤ p.2 := by
  induction l generalizing m with
  | nil => simp [firstMinAux] at hm
  | cons p l ih =>
    rw [firstMinAux] at hm
    rcases hfl : firstMinAux l with _ | m'
    · have hl : l = [] := (firstMinAux_none_iff l).mp hfl
      subst hl
      rw [hfl] at hm
      simp only [Option.some.injEq] at hm
      refine ⟨0, by simp, ?_, ?_, ?_⟩
      · simpa using hm
      · intro j hj hj0
        omega
      · intro q hq
        rw [List.mem_singleton] at hq
        subst hq
        rw [← hm]
    · rw [hfl] at hm
      simp only [Option.some.injEq] at hm
      obtain ⟨i', hi', hget', hbefore', hmin'⟩ := ih m' hfl
      by_cases hle : p.2 ≤ m'.2
      · rw [if_pos hle] at hm
        subst hm
        refine ⟨0, by simp, by simp, ?_, ?_⟩
        · intro j hj hj0
          omega
        · intro q hq
          rcases List.mem_cons.mp hq with hq | hq
          · subst hq; exact le_refl _
          · exact le_trans hle (hmin' q hq)
      · rw [if_neg hle] at hm
        subst hm
        push_neg at hle
        refine ⟨i' + 1, by simpa using Nat.succ_lt_succ hi', by simpa using hget', ?_, ?_⟩
        · intro j hj hj0
          cases j with
          | zero => simpa using hle
          | succ j' =>
            have hj' : j' < l.length := by simpa using hj
            have hlt : m'.2 < l[j'].2 := hbefore' j' hj' (by omega)
            simpa using hlt
        · intro q hq
          rcases List.mem_cons.mp hq with hq | hq
          · subst hq; exact le_of_lt hle
          · exact hmin' q hq

theorem length_meds_items (img : ImageStack) :
    (meds_items img).length = img.num_rounds * img.num_chs := by
  simp [meds_items, length_rc_pairs]

theorem meds_items_getElem (img : ImageStack) (i : Nat)
    (h : i < (meds_items img).length) :
    (meds_items img)[i] =
      ((i / img.num_chs, i % img.num_chs),
        np_mean img (i / img.num_chs) (i % img.num_chs)) := by
  have h' : i < (rc_pairs img.num_rounds img.num_chs).length := by
    simpa [meds_items] using h
  unfold meds_items
  rw [List.getElem_map, rc_pairs_getElem _ _ _ h']

theorem rc_rank_div_mod (C i : Nat) : (i / C) * C + i % C = i := by
  rw [Nat.mul_comm]
  exact Nat.div_add_mod i C

theorem rc_rank_lt (R C r ch : Nat) (hr : r < R) (hch : ch < C) : r * C + ch < R * C := by
  have h1 : r * C + ch < r * C + C := Nat.add_lt_add_left hch _
  have h2 : r * C + C = (r + 1) * C := (Nat.succ_mul r C).symm
  have h3 : (r + 1) * C ≤ R * C := Nat.mul_le_mul_right C hr
  omega

theorem rc_rank_div (C r ch : Nat) (hch : ch < C) : (r * C + ch) / C = r := by
  have hC : 0 < C := Nat.pos_of_ne_zero (fun h0 => by rw [h0] at hch; exact Nat.not_lt_zero ch hch)
  rw [Nat.add_comm, Nat.mul_comm r C, Nat.add_mul_div_left _ _ hC,
    Nat.div_eq_of_lt hch, Nat.zero_add]

theorem rc_rank_mod (C r ch : Nat) (hch : ch < C) : (r * C + ch) % C = ch := by
  rw [Nat.add_comm, Nat.mul_comm r C, Nat.add_mul_mod_self_left, Nat.mod_eq_of_lt hch]

/-! Section: Claim theorems -/

/-- Claim C7 — For every `ImageStack` (with at least one round and one channel, so that
`sorted(...)[0]` is defined), `match_hist_2_min` selects as reference the
`(round, channel)` block whose mean intensity is minimal, and when several blocks have
equal minimal means the earliest one in round-major, channel-minor iteration order
(smallest rank `r * num_chs + ch`) is chosen, deterministically. -/
theorem C7_reference_is_first_min (img : ImageStack)
    (hR : 1 ≤ img.num_rounds) (hC : 1 ≤ img.num_chs) :
    ((min_rch img).1 < img.num_rounds ∧ (min_rch img).2 < img.num_chs) ∧
    (∀ r ch, r < img.num_rounds → ch < img.num_chs →
      np_mean img (min_rch img).1 (min_rch img).2 ≤ np_mean img r ch) ∧
    (∀ r ch, r < img.num_rounds → ch < img.num_chs →
      np_mean img r ch = np_mean img (min_rch img).1 (min_rch img).2 →
      (min_rch img).1 * img.num_chs + (min_rch img).2 ≤ r * img.num_chs + ch) := by
  have hC0 : 0 < img.num_chs := hC
  have hlen : (meds_items img).length = img.num_rounds * img.num_chs :=
    length_meds_items img
  have hpos : 0 < (meds_items img).length := by
    rw [hlen]; exact Nat.mul_pos hR hC
  rcases hfm : firstMinAux (meds_items img) with _ | m
  · rw [firstMinAux_none_iff] at hfm
    rw [hfm] at hpos
    simp at hpos
  obtain ⟨i, hi, hget, hbefore, hmin⟩ := firstMinAux_spec (meds_items img) m hfm
  have hmr : min_rch img = m.1 := by
    unfold min_rch
    rw [List.headD_eq_head?, head?_insertionSort, hfm]
    rfl
  have hm_eq : m = ((i / img.num_chs, i % img.num_chs),
      np_mean img (i / img.num_chs) (i % img.num_chs)) := by
    rw [← hget, meds_items_getElem img i hi]
  have hmr1 : (min_rch img).1 = i / img.num_chs := by rw [hmr, hm_eq]
  have hmr2 : (min_rch img).2 = i % img.num_chs := by rw [hmr, hm_eq]
  have hm2 : m.2 = np_mean img (min_rch img).1 (min_rch img).2 := by
    rw [hmr1, hmr2, hm_eq]
  have hiRC : i < img.num_rounds * img.num_chs := by rw [← hlen]; exact hi
  refine ⟨⟨?_, ?_⟩, ?_, ?_⟩
  · rw [hmr1]
    exact (Nat.div_lt_iff_lt_mul hC0).mpr hiRC
  · rw [hmr2]
    exact Nat.mod_lt i hC0
  · intro r ch hr hch
    have hqmem : ((r, ch), np_mean img r ch) ∈ meds_items img := by
      unfold meds_items
      rw [List.mem_map]
      exact ⟨(r, ch), mem_rc_pairs.mpr ⟨hr, hch⟩, rfl⟩
    have := hmin _ hqmem
    rw [hm2] at this
    exact this
  · intro r ch hr hch heq
    set j := r * img.num_chs + ch with hj
    have hjlt : j < (meds_items img).length := by
      rw [hlen]; exact rc_rank_lt _ _ _ _ hr hch
    have hjget : (meds_items img)[j] = ((r, ch), np_mean img r ch) := by
      rw [meds_items_getElem img j hjlt, hj, rc_rank_div _ _ _ hch, rc_rank_mod _ _ _ hch]
    have hnotlt : ¬ j < i := by
      intro hji
      have hlt := hbefore j hjlt hji
      rw [hjget] at hlt
      simp only at hlt
      rw [heq, ← hm2] at hlt
      exact lt_irrefl _ hlt
    have hij : i ≤ j := Nat.le_of_not_lt hnotlt
    calc (min_rch img).1 * img.num_chs + (min_rch img).2
        = (i / img.num_chs) * img.num_chs + i % img.num_chs := by rw [hmr1, hmr2]
      _ = i := rc_rank_div_mod _ _
      _ ≤ j := hij

set_option maxRecDepth 8000 in
/-- Claim C1 (code bug) — The claimed parallel/sequential equivalence is the clear
intent (the chunking is meant to partition the full `(round, channel)` set at
floor-division boundaries, last chunk absorbing the remainder), but the code's
binary64 boundary `int((len(rchs) / num_threads) * i)` breaks it: with a single
`(round, channel)` pair and `num_threads = 49`, the float product
`fl(fl(1/49) * 49) = 1 - 2 ^ (-53)` truncates to `0`, every chunk is empty, the
pair is never dispatched, and the merged stack keeps its input value (`1` below)
while the single-worker run subtracts the opening estimate (giving `0`).  The
boundary model is bit-exact binary64 (round-nearest-even), so this theorem evaluates
the code itself at the failing input. -/
theorem C1_float_chunking_drops_pair :
    chunk_bound 1 49 49 = 0 ∧
    (chunked_slices (rc_pairs imgF.num_rounds imgF.num_chs) 49).flatten = [] ∧
    (subtract_background_estimate opn0 imgF 49).data 0 0 0 0 0 = 1 ∧
    (subtract_background_estimate opn0 imgF 1).data 0 0 0 0 0 = 0 := by
  refine ⟨by decide, by decide, ?_, ?_⟩
  · show ((chunked_slices (rc_pairs imgF.num_rounds imgF.num_chs) 49).zip
        ((chunked_slices (rc_pairs imgF.num_rounds imgF.num_chs) 49).map
          (fun chunk => morph_open opn0 chunk imgF.data imgF.num_zplanes 100))).foldl
        (fun d cr => (cr.1.zip cr.2).foldl (fun d p => merge_step d p.1 p.2) d)
        imgF.data 0 0 0 0 0 = 1
    have hc : chunked_slices (rc_pairs imgF.num_rounds imgF.num_chs) 49 =
        List.replicate 49 [] := by decide
    rw [hc]
    norm_num [List.replicate, imgF]
  · show ((chunked_slices (rc_pairs imgF.num_rounds imgF.num_chs) 1).zip
        ((chunked_slices (rc_pairs imgF.num_rounds imgF.num_chs) 1).map
          (fun chunk => morph_open opn0 chunk imgF.data imgF.num_zplanes 100))).foldl
        (fun d cr => (cr.1.zip cr.2).foldl (fun d p => merge_step d p.1 p.2) d)
        imgF.data 0 0 0 0 0 = 0
    have hc : chunked_slices (rc_pairs imgF.num_rounds imgF.num_chs) 1 = [[(0, 0)]] := by
      decide
    rw [hc]
    norm_num [morph_open, merge_step, imgF, opn0]

/-- Claim C2 — For every input `ImageStack` (which, per the data model, holds values
in `[0, 1]` at rest — hypothesis `hpx`), background removal in both modes (explicit
subtraction, and estimated subtraction with any worker count ≥ 1, under the bit-exact
binary64 chunk boundaries) returns a stack whose in-range pixels are all ≥ 0: every
subtracted value is clamped at zero, and planes the float chunking never dispatches
keep their (nonnegative) input values. -/
theorem C2_output_nonnegative (img background : ImageStack)
    (opn : Nat → Plane2 → Plane2) (num_threads : Nat) (hT : 1 ≤ num_threads)
    (r ch z y x : Nat)
    (hr : r < img.num_rounds) (hch : ch < img.num_chs) (hz : z < img.num_zplanes)
    (hpx : 0 ≤ img.data r ch z y x) :
    0 ≤ (subtract_background img background).data r ch z y x ∧
    0 ≤ (subtract_background_estimate opn img num_threads).data r ch z y x := by
  constructor
  · rw [subtract_background_data img background r ch z y x hr hch hz]
    exact le_max_left _ _
  · exact sbe_nonneg opn img num_threads r ch z y x hpx

/-- Claim C3 — For every target and background stack with the same round count, explicit
background subtraction produces at every in-range index `(r, ch, z, y, x)` exactly
`max 0 (target - background[r, ch % background.num_chs, z, y, x])`; in particular,
for a matching-shape background holding a uniform value `b`, every output pixel is
`max 0 (original - b)`. -/
theorem C3_explicit_subtraction_formula (img background : ImageStack)
    (hrounds : background.num_rounds = img.num_rounds)
    (r ch z y x : Nat)
    (hr : r < img.num_rounds) (hch : ch < img.num_chs) (hz : z < img.num_zplanes) :
    (subtract_background img background).data r ch z y x =
      max 0 (img.data r ch z y x
        - background.data r (ch % background.num_chs) z y x) :=
  subtract_background_data img background r ch z y x hr hch hz

/-- Claim C5 — For every estimated shift, the 4×4 homogeneous transform built by
`register_primary` has translation entries only in rows 1 and 2 of column 3 (taken
from shift components 1 and 2); the z row (row 0) and all other entries are identity.
-/
theorem C5_tform_shifts_only_y_x (shift : Nat → ℚ) (i j : Nat) :
    mkTform shift i j =
      if i = j then 1
      else if i = 1 ∧ j = 3 then shift 1
      else if i = 2 ∧ j = 3 then shift 2
      else 0 := by
  show set_entry (set_entry (fun a b => if a = b then 1 else 0) 1 3 (shift 1))
      2 3 (shift 2) i j = _
  unfold set_entry
  by_cases h2 : i = 2 ∧ j = 3
  · obtain ⟨hi, hj⟩ := h2
    subst hi; subst hj
    norm_num
  · rw [if_neg h2]
    by_cases h1 : i = 1 ∧ j = 3
    · obtain ⟨hi, hj⟩ := h1
      subst hi; subst hj
      norm_num
    · rw [if_neg h1]
      by_cases hij : i = j
      · subst hij
        simp
      · simp [hij, h1, h2]

/-- Claim C6 — For every primary stack, registration stack, black-box shift estimator,
matrix inverter and warper, and every `chs_per_reg = k ≥ 1`, the warp applied to
primary plane `(r, ch)` uses exactly the inverse of the transform computed for
registration key `(r, ch / k)` (integer floor division, including at channel-group
boundaries), with the warp's requested output shape equal to the input's
`(zplane, y, x)` extents (which are preserved on the returned stack). -/
theorem C6_group_lookup_and_shape (pcc : Plane3 → Plane3 → Nat → ℚ)
    (inv : Mat4 → Mat4) (warp : Mat4 → Nat × Nat × Nat → Plane3 → Plane3)
    (img reg_img : ImageStack) (k : Nat) (hk : 1 ≤ k)
    (r ch : Nat) (hr : r < img.num_rounds) (hch : ch < img.num_chs) (z y x : Nat) :
    (register_primary pcc inv warp img reg_img k).num_zplanes = img.num_zplanes ∧
    (register_primary pcc inv warp img reg_img k).ydim = img.ydim ∧
    (register_primary pcc inv warp img reg_img k).xdim = img.xdim ∧
    (register_primary pcc inv warp img reg_img k).data r ch z y x =
      warp (inv (mkTform (pcc (reg_img.block 0 0) (reg_img.block r (ch / k)))))
        (img.num_zplanes, img.ydim, img.xdim) (img.block r ch) z y x := by
  refine ⟨rfl, rfl, rfl, ?_⟩
  simp [register_primary, hr, hch]

/-- Claim C8 — For every plane value `x ∈ [0, 1]`, de-quantizing its quantization
(`np.rint(x * 2**16) / 2**16`, as in `rolling_ball` and `match_hist_2_min`) yields a
value within `1/65536` of `x`. -/
theorem C8_quantize_roundtrip (x : ℚ) (h0 : 0 ≤ x) (h1 : x ≤ 1) :
    |dequantize16 (quantize16 x) - x| ≤ 1 / 65536 := by
  have hclose := np_rint_close (x * 2 ^ 16)
  have hrw : dequantize16 (quantize16 x) - x =
      (((np_rint (x * 2 ^ 16) : ℤ) : ℚ) - x * 2 ^ 16) / 2 ^ 16 := by
    unfold dequantize16 quantize16
    ring
  rw [hrw, abs_div]
  have habs : |(2 : ℚ) ^ 16| = 2 ^ 16 := abs_of_pos (by norm_num)
  rw [habs]
  rw [div_le_iff (by norm_num : (0:ℚ) < 2 ^ 16)]
  norm_num at hclose ⊢
  linarith

/-- Claim C10 — For every `level_method` string that does not case-insensitively match
one of the four scale strategies (including the empty string and arbitrary garbage),
`cli` raises no error and silently falls back to `Levels.SCALE_BY_IMAGE`. -/
theorem C10_level_method_silent_default (level_method : String)
    (h1 : str_upper level_method ≠ "SCALE_BY_CHUNK")
    (h2 : str_upper level_method ≠ "SCALE_BY_IMAGE")
    (h3 : str_upper level_method ≠ "SCALE_SATURATED_BY_CHUNK")
    (h4 : str_upper level_method ≠ "SCALE_SATURATED_BY_IMAGE") :
    resolve_level_method level_method = Levels.SCALE_BY_IMAGE := by
  simp [resolve_level_method, h1, h2, h3, h4]

/-- Claim C4 (counterexample) — The claim "every enabled stage applied to the primary is
also applied to the anchor" is false: with an anchor configured and all stages
enabled, the low-pass filter and the registration stage run on the primary stack but
not on the anchor stack (`cli` has no anchor branch at lines 370–375 and 403–407). -/
theorem C4_counterexample :
    cfgC4.anchor_name = true ∧
    Stage.lowPass ∈ primary_stages cfgC4 ∧ Stage.lowPass ∉ anchor_stages cfgC4 ∧
    Stage.registerPrimary ∈ primary_stages cfgC4 ∧
    Stage.registerPrimary ∉ anchor_stages cfgC4 := by
  decide

set_option maxHeartbeats 3200000 in
/-- Claim C4 (amended) — When an anchor view is configured, every enabled stage applied
to the primary stack *except* the low-pass filter and registration is also applied to
the anchor, with background removal mode-matched to the primary's mode; the anchor is
never registered at all (so in particular it never acts as its own registration
reference). -/
theorem C4_anchor_mirrors_all_but_lowpass_registration (cfg : CliConfig)
    (h : cfg.anchor_name = true) :
    (∀ s ∈ primary_stages cfg, s ≠ Stage.lowPass → s ≠ Stage.registerPrimary →
      s ∈ anchor_stages cfg) ∧
    Stage.registerPrimary ∉ anchor_stages cfg ∧
    (Stage.subtractBackground ∈ anchor_stages cfg ↔
      Stage.subtractBackground ∈ primary_stages cfg) ∧
    (Stage.subtractBackgroundEstimate ∈ anchor_stages cfg ↔
      Stage.subtractBackgroundEstimate ∈ primary_stages cfg) := by
  rcases cfg with ⟨bg, anc, hs, ds, ls, wr, rr, mh, ax, rs⟩
  simp only at h
  subst h
  refine ⟨?_, ?_, ?_, ?_⟩ <;>
    simp only [primary_stages, anchor_stages, if_true] <;>
    cases bg <;> cases hs <;> cases ds <;> cases ls <;> cases wr <;> cases rr <;>
      cases mh <;> cases ax <;> cases rs <;> decide

theorem C4_witness : Stage.highPass ∈ anchor_stages cfgC4 :=
  (C4_anchor_mirrors_all_but_lowpass_registration cfgC4 rfl).1 Stage.highPass
    (by decide) (by decide) (by decide)

/-- Claim C9 (counterexample) — The claim that explicit background subtraction rejects a
non-divisor channel-count mismatch with a `ConfigurationError` is false on the code:
`subtract_background` is total and, on a 3-channel target with a 2-channel
background, silently produces the dimension-wrapped result — target channel 2 gets
background channel `2 % 2 = 0` subtracted (value `max 0 (1 - 1/4) = 3/4`). -/
theorem C9_counterexample :
    ¬ (bgC9.num_chs ∣ imgC9.num_chs) ∧
    (subtract_background imgC9 bgC9).data 0 2 0 0 0 = 3 / 4 ∧
    (subtract_background imgC9 bgC9).data 0 2 0 0 0 =
      max 0 (imgC9.data 0 2 0 0 0 - bgC9.data 0 (2 % bgC9.num_chs) 0 0 0) := by
  refine ⟨by decide, ?_, ?_⟩
  · norm_num [subtract_background, imgC9, bgC9]
  · norm_num [subtract_background, imgC9, bgC9]

/-- Claim C9 (amended) — For every target and background stack whose channel counts are
in a non-divisor relationship, explicit background subtraction does *not* reject the
input: it silently produces the dimension-wrapped result, subtracting background
plane `(r, ch % background.num_chs, z)` and clamping negatives to zero. -/
theorem C9_amended_wraps_instead_of_rejecting (img background : ImageStack)
    (hmis : ¬ (background.num_chs ∣ img.num_chs))
    (r ch z y x : Nat)
    (hr : r < img.num_rounds) (hch : ch < img.num_chs) (hz : z < img.num_zplanes) :
    (subtract_background img background).data r ch z y x =
      max 0 (img.data r ch z y x
        - background.data r (ch % background.num_chs) z y x) :=
  subtract_background_data img background r ch z y x hr hch hz

theorem C9_amended_witness :
    (subtract_background imgC9 bgC9).data 0 1 0 0 0 =
      max 0 (imgC9.data 0 1 0 0 0 - bgC9.data 0 (1 % bgC9.num_chs) 0 0 0) :=
  C9_amended_wraps_instead_of_rejecting imgC9 bgC9 (by decide) 0 1 0 0 0
    (by decide) (by decide) (by decide)

/-! Section: Witnesses for the remaining hypothesis-bearing claim theorems -/

theorem C2_witness :
    0 ≤ (subtract_background imgW bgW).data 0 0 0 0 0 ∧
    0 ≤ (subtract_background_estimate opn0 imgW 2).data 0 0 0 0 0 :=
  C2_output_nonnegative imgW bgW opn0 2 (by decide) 0 0 0 0 0
    (by decide) (by decide) (by decide) (by norm_num [imgW])

theorem C3_witness :
    (subtract_background imgW bgW).data 0 1 0 0 0 =
      max 0 (imgW.data 0 1 0 0 0 - bgW.data 0 (1 % bgW.num_chs) 0 0 0) :=
  C3_explicit_subtraction_formula imgW bgW rfl 0 1 0 0 0
    (by decide) (by decide) (by decide)

theorem C6_witness :
    (register_primary pcc0 inv0 warp0 imgW bgW 2).num_zplanes = imgW.num_zplanes ∧
    (register_primary pcc0 inv0 warp0 imgW bgW 2).ydim = imgW.ydim ∧
    (register_primary pcc0 inv0 warp0 imgW bgW 2).xdim = imgW.xdim ∧
    (register_primary pcc0 inv0 warp0 imgW bgW 2).data 0 1 0 0 0 =
      warp0 (inv0 (mkTform (pcc0 (bgW.block 0 0) (bgW.block 0 (1 / 2)))))
        (imgW.num_zplanes, imgW.ydim, imgW.xdim) (imgW.block 0 1) 0 0 0 :=
  C6_group_lookup_and_shape pcc0 inv0 warp0 imgW bgW 2 (by decide) 0 1
    (by decide) (by decide) 0 0 0

theorem C7_witness :
    np_mean imgW (min_rch imgW).1 (min_rch imgW).2 ≤ np_mean imgW 0 0 :=
  (C7_reference_is_first_min imgW (by decide) (by decide)).2.1 0 0
    (by decide) (by decide)

theorem C8_witness : |dequantize16 (quantize16 (1 / 3)) - 1 / 3| ≤ 1 / 65536 :=
  C8_quantize_roundtrip (1 / 3) (by norm_num) (by norm_num)

theorem C10_witness : resolve_level_method "" = Levels.SCALE_BY_IMAGE :=
  C10_level_method_silent_default "" (by decide) (by decide) (by decide) (by decide)

end ImgProcessing
